import Mathlib

/-!
Verification of the server-environment mixin
(`src/server_environment/models/server_env_mixin.py`).

The mixin lets a record resolve certain field values from an external
configuration store, falling back to a per-record shadow default field.
We embed the data model (config store, records, field descriptors, model
definitions) and the operations of the mixin as executable Lean functions,
faithful to the Python source; the pieces of the repository that are not
under `src/` (the `serv_config` Config Resolver) and the host ORM read
semantics are modelled from the spec and marked as such.

Python exceptions are modelled with `Except String`; the Python value
universe relevant to the mixin (strings, booleans, integers, `False`
sentinel) is modelled with `CValue`.
-/

namespace ServerEnv

/-- Typed values flowing through the mixin: strings, booleans and integers,
matching the three configparser getter kinds.  The Python `False` sentinel
returned on lookup errors is `CValue.b false`. -/
inductive CValue : Type
  | s (v : String)
  | b (v : Bool)
  | i (v : Int)
  deriving DecidableEq, Repr

/-- Getter kinds of the overridden-fields mapping
(`_server_env_fields` values): string, boolean and integer getters. -/
inductive GetterKind : Type
  | get
  | get_bool
  | get_int
  deriving DecidableEq, Repr

/-- Values appearing in a field descriptor constructor-args dictionary
(`field.args`): strings, booleans and numbers. -/
inductive ArgVal : Type
  | s (v : String)
  | b (v : Bool)
  | n (v : Nat)
  deriving DecidableEq, Repr

/-- Lookup in an association list keyed by strings (models a Python dict
read returning `None`/`KeyError` absence as `none`). -/
def alookup {α : Type} : List (String × α) → String → Option α
  | [], _ => none
  | (k, v) :: rest, key => if k = key then some v else alookup rest key

/-- Replace the value stored under an existing key (models in-place update
of the object stored under that key). -/
def setEntry {α : Type} : List (String × α) → String → α → List (String × α)
  | [], _, _ => []
  | (k, v) :: rest, key, nv =>
      if k = key then (k, nv) :: rest else (k, v) :: setEntry rest key nv

/-- Remove a key if present (models `dict.pop(key, None)`). -/
def eraseKey {α : Type} : List (String × α) → String → List (String × α)
  | [], _ => []
  | (k, v) :: rest, key =>
      if k = key then rest else (k, v) :: eraseKey rest key

/-- Insert or replace a key (models `dict[key] = value` /
`dict.update`). -/
def putEntry {α : Type} (l : List (String × α)) (key : String) (v : α) :
    List (String × α) :=
  if (alookup l key).isSome then setEntry l key v else l ++ [(key, v)]

/-- Number of entries carrying a given key. -/
def countKey {α : Type} (l : List (String × α)) (key : String) : Nat :=
  (l.filter (fun p => decide (p.1 = key))).length

/-- The configuration store: named sections, each a list of key/value
pairs of raw strings (an INI-style file already parsed). -/
structure ServConfig : Type where
  sections : List (String × List (String × String))
  deriving DecidableEq, Repr

/-- Raw string stored under `(section, key)`, if any. -/
def ServConfig.raw (cfg : ServConfig) (section_name key : String) :
    Option String :=
  match alookup cfg.sections section_name with
  | none => none
  | some sec => alookup sec key

/-- Membership test `section_name in serv_config and field_name in
serv_config[section_name]` used by `_compute_server_env` (lines 103-104 of
the source). -/
def ServConfig.hasSectionAndKey (cfg : ServConfig) (section_name key : String) :
    Bool :=
  (cfg.raw section_name key).isSome

/-- Modelled from the spec: configparser boolean coercion accepts the usual
truthy and falsy spellings, case-insensitively, and fails on anything else
(`serv_config` is repository code outside `src/`). -/
def parseBool (raw : String) : Option Bool :=
  let l := String.mk (raw.data.map Char.toLower)
  if l = "1" ∨ l = "yes" ∨ l = "true" ∨ l = "on" then some true
  else if l = "0" ∨ l = "no" ∨ l = "false" ∨ l = "off" then some false
  else none

/-- Decimal digit run to a natural number; fails on an empty run or a
non-digit character. -/
def digitsToNat (l : List Char) : Option Nat :=
  if l ≠ [] ∧ l.all (fun c => c.isDigit) then
    some (l.foldl (fun acc c => acc * 10 + (c.toNat - 48)) 0)
  else none

/-- Modelled from the spec: decimal integer coercion of a raw string, with
an optional leading minus sign; fails on anything else. -/
def parseInt (raw : String) : Option Int :=
  match raw.data with
  | [] => none
  | c :: rest =>
      if c = Char.ofNat 45 then (digitsToNat rest).map (fun n => -(n : Int))
      else (digitsToNat (c :: rest)).map (fun n => (n : Int))

/-- Modelled from the spec: the Config Resolver typed getters `get`,
`get_bool`, `get_int` return the coerced value for `(section, key)` and
raise a lookup error when the key is absent or a coercion error when the
raw string cannot be coerced (`serv_config` is repository code outside
`src/`; the spec, section 4.1, fixes this contract). -/
def typedGet (cfg : ServConfig) (g : GetterKind) (section_name key : String) :
    Except String CValue :=
  match cfg.raw section_name key with
  | none => .error "NoOptionError"
  | some raw =>
    match g with
    | .get => .ok (.s raw)
    | .get_bool =>
        match parseBool raw with
        | some b => .ok (.b b)
        | none => .error "ValueError: not a boolean"
    | .get_int =>
        match parseInt raw with
        | some n => .ok (.i n)
        | none => .error "ValueError: invalid literal for int"

/-- The empty value of each getter kind: empty string, false, zero. -/
def emptyValue : GetterKind → CValue
  | .get => .s ""
  | .get_bool => .b false
  | .get_int => .i 0

/-- A record in a recordset: its display name (the `name` field used for
the section name) and its stored field values.  An absent key means the
field is unset. -/
structure RecordData : Type where
  displayName : String
  vals : List (String × CValue)
  deriving DecidableEq, Repr

/-- Modelled from the spec: the host ORM read `record[field]` returns the
stored value, and the type-appropriate empty value when the field is unset
(spec, section 8, fallback-of-fallback; the ORM is an external
collaborator).  The getter kind stands for the field type. -/
def recordGet (r : RecordData) (field : String) (g : GetterKind) : CValue :=
  match alookup r.vals field with
  | some v => v
  | none => emptyValue g

/-- The host ORM write `record[field] = value`. -/
def recordSet (r : RecordData) (field : String) (v : CValue) : RecordData :=
  { r with vals := putEntry r.vals field v }

/-- Python `self._name.replace(".", "_")`: every dot replaced by an
underscore. -/
def replaceDots (s : String) : String :=
  String.mk (s.data.map (fun c => if c = '.' then '_' else c))

/-- Embeds `_server_env_section_name` (source lines 71-80): after
`self.ensure_one()` (raising `ValueError` unless the recordset has exactly
one record), returns `".".join((self._name.replace(".", "_"), self.name))`. -/
def serverEnvSectionName (modelName : String) (self : List RecordData) :
    Except String String :=
  match self with
  | [r] => .ok (replaceDots modelName ++ "." ++ r.displayName)
  | _ => .error "ValueError: Expected singleton"

/-- Embeds `_server_env_default_fieldname` (source lines 118-119):
`'%s_env_default' % (base_field_name,)`. -/
def serverEnvDefaultFieldname (base_field_name : String) : String :=
  base_field_name ++ "_env_default"

/-- Log line of `_server_env_read_from_config`:
`"error trying to read field %s in section %s"`. -/
def readErrorLog (field_name section_name : String) : String :=
  "error trying to read field " ++ field_name ++ " in section " ++ section_name

/-- Embeds `_server_env_read_from_config` (source lines 82-96):
`self.ensure_one()` (outside the `try`, so its error propagates), then the
typed getter runs inside a bare `try`/`except`; any getter error is logged
(with the field and section names) and collapses to the Python `False`
sentinel instead of propagating.  The second component is the emitted log
entry, if any. -/
def serverEnvReadFromConfig (cfg : ServConfig) (self : List RecordData)
    (section_name field_name : String) (config_getter : GetterKind) :
    Except String (CValue × Option String) :=
  match self with
  | [_] =>
      match typedGet cfg config_getter section_name field_name with
      | .ok value => .ok (value, none)
      | .error _ => .ok (.b false, some (readErrorLog field_name section_name))
  | _ => .error "ValueError: Expected singleton"

/-- Inner loop of `_compute_server_env` (source lines 100-116) for one
record: for each `(field_name, getter_name)` pair, the section name is
computed from `self` (the WHOLE recordset, exactly as the source does),
then either the config value is read (when the section and key are
present) or the shadow default field of this record is read, and the
result is assigned to the record. -/
def computeFieldsGo (cfg : ServConfig) (modelName : String)
    (self : List RecordData) (r : RecordData) :
    List (String × GetterKind) → Except String RecordData
  | [] => .ok r
  | (field_name, getter_name) :: rest => do
      let section_name ← serverEnvSectionName modelName self
      let value ←
        if cfg.hasSectionAndKey section_name field_name then
          (serverEnvReadFromConfig cfg self section_name field_name
            getter_name).map Prod.fst
        else
          pure (recordGet r (serverEnvDefaultFieldname field_name)
            getter_name)
      computeFieldsGo cfg modelName self (recordSet r field_name value) rest

/-- Outer loop of `_compute_server_env`: `for record in self`. -/
def computeServerEnvGo (cfg : ServConfig) (modelName : String)
    (self : List RecordData) (envFields : List (String × GetterKind)) :
    List RecordData → Except String (List RecordData)
  | [] => .ok []
  | r :: rs => do
      let r' ← computeFieldsGo cfg modelName self r envFields
      let rs' ← computeServerEnvGo cfg modelName self envFields rs
      .ok (r' :: rs')

/-- Embeds `_compute_server_env` (source lines 98-116): iterates over the
recordset, resolving every declared field of every record; any raised
exception (in particular the `ensure_one` in `_server_env_section_name`,
called on `self`) aborts the computation. -/
def computeServerEnv (cfg : ServConfig) (modelName : String)
    (envFields : List (String × GetterKind)) (self : List RecordData) :
    Except String (List RecordData) :=
  computeServerEnvGo cfg modelName self envFields self

/-- A field descriptor of the host schema framework: mutable attributes
(compute source, store flag, copy flag, sparse flag, automatic flag), the
concrete field class and the constructor-args dictionary `field.args`.
The `name` attribute is the attribute name under which the field is
registered on the model. -/
structure FieldDesc : Type where
  name : String
  fclass : String
  compute : Option String
  store : Bool
  copy : Bool
  sparse : Option String
  automatic : Bool
  args : List (String × ArgVal)
  deriving DecidableEq, Repr

/-- A record type: its `_name`, its `_fields` registry and its
`_server_env_fields` mapping of field names to getter kinds. -/
structure ModelDef : Type where
  name : String
  fields : List (String × FieldDesc)
  serverEnvFields : List (String × GetterKind)
  deriving DecidableEq, Repr

/-- Embeds `_server_env_transform_field_to_read_from_env` (source lines
121-126): mutate the descriptor in place, setting
`compute = '_compute_server_env'`, `store = False`, `copy = False`,
`sparse = None`. -/
def transformFieldToReadFromEnv (field : FieldDesc) : FieldDesc :=
  { field with
    compute := some "_compute_server_env"
    store := false
    copy := false
    sparse := none }

/-- Modelled from the spec: constructing a field `base_field_cls(**args)`
of the host framework gives a fresh descriptor of that class whose
`sparse` and `automatic` attributes come from the args dictionary and
whose other attributes have their defaults (the host field constructor is
an external collaborator; spec section 4.2 step 4 fixes what matters:
same concrete class and constructor arguments). -/
def mkFieldFromArgs (cls : String) (args : List (String × ArgVal)) :
    FieldDesc :=
  { name := ""
    fclass := cls
    compute := none
    store := true
    copy := true
    sparse :=
      match alookup args "sparse" with
      | some (.s v) => some v
      | _ => none
    automatic :=
      match alookup args "automatic" with
      | some (.b v) => v
      | _ => false
    args := args }

/-- The host framework `_add_field(name, field)`: registers the field on
the model under `name` (setting the descriptor name attribute). -/
def addField (m : ModelDef) (fieldname : String) (field : FieldDesc) :
    ModelDef :=
  { m with fields := m.fields ++ [(fieldname, { field with name := fieldname })] }

/-- The mutated args dictionary built by `_server_env_add_default_field`
(source lines 132-137): `field_args.pop('_sequence', None)` then
`field_args.update({'sparse': 'server_env_defaults', 'automatic': True})`. -/
def defaultFieldArgs (args : List (String × ArgVal)) :
    List (String × ArgVal) :=
  putEntry (putEntry (eraseKey args "_sequence")
    "sparse" (.s "server_env_defaults")) "automatic" (.b true)

/-- Embeds `_server_env_add_default_field` (source lines 128-139).  When
the shadow field `<base_field.name>_env_default` is not yet registered:
`field_args = base_field.args` ALIASES the args dictionary of the original
descriptor, so the pop and the update mutate the original field in place
(modelled by writing the descriptor with the mutated args back under its
own name); the shadow field is then constructed from the same mutated args
and registered.  When the shadow field already exists, nothing happens. -/
def serverEnvAddDefaultField (m : ModelDef) (base_field : FieldDesc) :
    ModelDef :=
  let fieldname := serverEnvDefaultFieldname base_field.name
  if (alookup m.fields fieldname).isSome then m
  else
    let field_args := defaultFieldArgs base_field.args
    let base_mutated := { base_field with args := field_args }
    let m1 := { m with fields := setEntry m.fields base_field.name base_mutated }
    let field := mkFieldFromArgs base_field.fclass field_args
    addField m1 fieldname field

/-- One iteration of the `_setup_base` loop (source lines 144-147):
`field = self._fields[fieldname]` (a `KeyError` propagates when the
declared name has no field), then the in-place transformation, then the
shadow-field registration. -/
def setupField (m : ModelDef) (fieldname : String) :
    Except String ModelDef :=
  match alookup m.fields fieldname with
  | none => .error ("KeyError: " ++ fieldname)
  | some field =>
      let field1 := transformFieldToReadFromEnv field
      let m1 := { m with fields := setEntry m.fields fieldname field1 }
      .ok (serverEnvAddDefaultField m1 field1)

/-- The `_setup_base` loop over the declared field names. -/
def setupBaseGo (m : ModelDef) :
    List (String × GetterKind) → Except String ModelDef
  | [] => .ok m
  | (fieldname, _) :: rest => do
      let m1 ← setupField m fieldname
      setupBaseGo m1 rest

/-- Embeds `_setup_base` (source lines 141-147): for every field name in
`_server_env_fields`, transform the field and register its shadow default
field.  (The `super()._setup_base()` call belongs to the host framework
and is outside the mixin behaviour.) -/
def setupBase (m : ModelDef) : Except String ModelDef :=
  setupBaseGo m m.serverEnvFields

/-- Well-formedness tying the embedding to the host framework invariant
that a descriptor registered under a key carries that key as its `name`
attribute. -/
def WellNamed (m : ModelDef) : Prop :=
  ∀ p ∈ m.fields, p.2.name = p.1

/-- The keys of an association list. -/
def keys {α : Type} (l : List (String × α)) : List String :=
  l.map Prod.fst

deriving instance DecidableEq for Except

instance decWellNamed (m : ModelDef) : Decidable (WellNamed m) := by
  unfold WellNamed
  infer_instance

/-- The value `_server_env_read_from_config` produces for a singleton
recordset: the typed config value, or the `False` sentinel when the getter
raises (abbreviation used by the lemmas below). -/
def configValue (cfg : ServConfig) (section_name field_name : String)
    (g : GetterKind) : CValue :=
  match typedGet cfg g section_name field_name with
  | .ok v => v
  | .error _ => .b false

/-- The value one iteration of the `_compute_server_env` inner loop
resolves for a field, given the section name and the state of the record
at that iteration (abbreviation used by the lemmas below). -/
def resolvedValue (cfg : ServConfig) (section_name field_name : String)
    (g : GetterKind) (r : RecordData) : CValue :=
  if cfg.hasSectionAndKey section_name field_name then
    configValue cfg section_name field_name g
  else
    recordGet r (serverEnvDefaultFieldname field_name) g

/-- After-setup property of an overridden field: its descriptor is
computed by the shared routine, non-stored, non-copied, with the sparse
flag cleared. -/
def Transformed (m : ModelDef) (d : String) : Prop :=
  ∃ fd, alookup m.fields d = some fd ∧
    fd.compute = some "_compute_server_env" ∧
    fd.store = false ∧ fd.copy = false ∧ fd.sparse = none

/-- After-setup property of a declared field: its shadow default field is
registered and stored in the `server_env_defaults` serialized blob. -/
def HasShadow (m : ModelDef) (d : String) : Prop :=
  ∃ sd, alookup m.fields (serverEnvDefaultFieldname d) = some sd ∧
    sd.sparse = some "server_env_defaults"

/-! ### Association list lemmas -/

theorem mem_keys {α : Type} {l : List (String × α)} {k : String} :
    k ∈ keys l ↔ ∃ v, (k, v) ∈ l := by
  constructor
  · intro h
    rcases List.mem_map.1 h with ⟨⟨a, b⟩, hm, he⟩
    exact ⟨b, by simpa [← he] using hm⟩
  · rintro ⟨v, hm⟩
    exact List.mem_map.2 ⟨(k, v), hm, rfl⟩

theorem alookup_eq_none {α : Type} (l : List (String × α)) (k : String) :
    alookup l k = none ↔ k ∉ keys l := by
  induction l with
  | nil => simp [alookup, keys]
  | cons p rest ih =>
      obtain ⟨k', v⟩ := p
      simp only [keys, List.map_cons, List.mem_cons]
      by_cases h : k' = k
      · subst h
        simp [alookup]
      · simp only [alookup, if_neg h]
        rw [ih]
        simp only [keys]
        constructor
        · intro hn hor
          rcases hor with hor | hor
          · exact h hor.symm
          · exact hn hor
        · intro hn hm
          exact hn (Or.inr hm)

theorem alookup_isSome_iff {α : Type} (l : List (String × α)) (k : String) :
    (alookup l k).isSome = true ↔ k ∈ keys l := by
  rw [Option.isSome_iff_ne_none]
  constructor
  · intro h
    by_contra hk
    exact h ((alookup_eq_none l k).2 hk)
  · intro h hn
    exact (alookup_eq_none l k).1 hn h

theorem alookup_mem {α : Type} {l : List (String × α)} {k : String} {v : α}
    (h : alookup l k = some v) : (k, v) ∈ l := by
  induction l with
  | nil => simp [alookup] at h
  | cons p rest ih =>
      obtain ⟨k', v'⟩ := p
      by_cases hk : k' = k
      · subst hk
        simp [alookup] at h
        simp [h]
      · simp [alookup, hk] at h
        exact List.mem_cons_of_mem _ (ih h)

theorem alookup_append_some {α : Type} {l1 : List (String × α)}
    (l2 : List (String × α)) {k : String} {v : α}
    (h : alookup l1 k = some v) : alookup (l1 ++ l2) k = some v := by
  induction l1 with
  | nil => simp [alookup] at h
  | cons p rest ih =>
      obtain ⟨k', v'⟩ := p
      by_cases hk : k' = k
      · subst hk
        simp [alookup] at h ⊢
        exact h
      · simp [alookup, hk] at h ⊢
        exact ih h

theorem alookup_append_none {α : Type} {l1 : List (String × α)}
    (l2 : List (String × α)) {k : String}
    (h : alookup l1 k = none) : alookup (l1 ++ l2) k = alookup l2 k := by
  induction l1 with
  | nil => simp
  | cons p rest ih =>
      obtain ⟨k', v'⟩ := p
      by_cases hk : k' = k
      · subst hk
        simp [alookup] at h
      · simp [alookup, hk] at h ⊢
        exact ih h

theorem keys_setEntry {α : Type} (l : List (String × α)) (k : String) (v : α) :
    keys (setEntry l k v) = keys l := by
  induction l with
  | nil => simp [setEntry]
  | cons p rest ih =>
      obtain ⟨k', v'⟩ := p
      by_cases hk : k' = k
      · simp [setEntry, hk, keys]
      · simp [setEntry, hk, keys] at ih ⊢
        exact ih

theorem alookup_setEntry_ne {α : Type} (l : List (String × α))
    {k k' : String} (v : α) (h : k' ≠ k) :
    alookup (setEntry l k v) k' = alookup l k' := by
  induction l with
  | nil => simp [setEntry]
  | cons p rest ih =>
      obtain ⟨k0, v0⟩ := p
      by_cases hk : k0 = k
      · subst hk
        have : k0 ≠ k' := fun he => h he.symm
        simp [setEntry, alookup, this]
      · by_cases hk' : k0 = k'
        · subst hk'
          simp [setEntry, alookup, hk]
        · simp [setEntry, alookup, hk, hk', ih]

theorem alookup_setEntry_self {α : Type} {l : List (String × α)}
    {k : String} (v : α) (h : k ∈ keys l) :
    alookup (setEntry l k v) k = some v := by
  induction l with
  | nil => simp [keys] at h
  | cons p rest ih =>
      obtain ⟨k0, v0⟩ := p
      by_cases hk : k0 = k
      · subst hk
        simp [setEntry, alookup]
      · simp only [keys, List.map_cons, List.mem_cons] at h
        rcases h with h | h
        · exact (hk h.symm).elim
        · simp only [setEntry, if_neg hk, alookup]
          exact ih h

theorem setEntry_self {α : Type} {l : List (String × α)} {k : String} {v : α}
    (h : alookup l k = some v) : setEntry l k v = l := by
  induction l with
  | nil => simp [alookup] at h
  | cons p rest ih =>
      obtain ⟨k0, v0⟩ := p
      by_cases hk : k0 = k
      · subst hk
        simp [alookup] at h
        simp [setEntry, h]
      · simp [alookup, hk] at h
        simp [setEntry, hk, ih h]

theorem mem_setEntry {α : Type} {l : List (String × α)} {k : String} {v : α}
    {p : String × α} (h : p ∈ setEntry l k v) : p ∈ l ∨ p = (k, v) := by
  induction l with
  | nil => simp [setEntry] at h
  | cons q rest ih =>
      obtain ⟨k0, v0⟩ := q
      by_cases hk : k0 = k
      · subst hk
        simp [setEntry] at h
        rcases h with h | h
        · right; exact h
        · left; exact List.mem_cons_of_mem _ h
      · simp [setEntry, hk] at h
        rcases h with h | h
        · left; simp [h]
        · rcases ih h with h' | h'
          · left; exact List.mem_cons_of_mem _ h'
          · right; exact h'

theorem alookup_putEntry_self {α : Type} (l : List (String × α))
    (k : String) (v : α) : alookup (putEntry l k v) k = some v := by
  unfold putEntry
  by_cases h : (alookup l k).isSome = true
  · simp [h]
    exact alookup_setEntry_self v ((alookup_isSome_iff l k).1 h)
  · simp [h]
    have hn : alookup l k = none := by
      cases he : alookup l k with
      | none => rfl
      | some w => rw [he] at h; simp at h
    rw [alookup_append_none _ hn]
    simp [alookup]

theorem alookup_putEntry_ne {α : Type} (l : List (String × α))
    {k k' : String} (v : α) (h : k' ≠ k) :
    alookup (putEntry l k v) k' = alookup l k' := by
  unfold putEntry
  by_cases hs : (alookup l k).isSome = true
  · simp [hs]
    exact alookup_setEntry_ne l v h
  · simp [hs]
    cases he : alookup l k' with
    | some w => exact alookup_append_some _ he
    | none =>
        rw [alookup_append_none _ he]
        have hne : k ≠ k' := fun hh => h hh.symm
        simp [alookup, hne]

theorem alookup_eraseKey_ne {α : Type} (l : List (String × α))
    {k k' : String} (h : k' ≠ k) :
    alookup (eraseKey l k) k' = alookup l k' := by
  induction l with
  | nil => simp [eraseKey]
  | cons p rest ih =>
      obtain ⟨k0, v0⟩ := p
      by_cases hk : k0 = k
      · subst hk
        have : k0 ≠ k' := fun he => h he.symm
        simp [eraseKey, alookup, this]
      · simp [eraseKey, alookup, hk, ih]

theorem alookup_eraseKey_self {α : Type} {l : List (String × α)} {k : String}
    (h : (keys l).Nodup) : alookup (eraseKey l k) k = none := by
  induction l with
  | nil => simp [eraseKey, alookup]
  | cons p rest ih =>
      obtain ⟨k0, v0⟩ := p
      rw [show keys ((k0, v0) :: rest) = k0 :: keys rest from rfl] at h
      rcases List.nodup_cons.1 h with ⟨h1, h2⟩
      by_cases hk : k0 = k
      · subst hk
        simp only [eraseKey, if_pos rfl]
        exact (alookup_eq_none _ _).2 h1
      · simp only [eraseKey, if_neg hk, alookup]
        exact ih h2

theorem countKey_eq_count {α : Type} (l : List (String × α)) (k : String) :
    countKey l k = (keys l).count k := by
  induction l with
  | nil => simp [countKey, keys]
  | cons p rest ih =>
      obtain ⟨k0, v0⟩ := p
      by_cases hk : k0 = k
      · subst hk
        simp [countKey, keys, List.count_cons] at ih ⊢
        omega
      · simp [countKey, keys, List.count_cons, hk] at ih ⊢
        simpa [hk] using ih

theorem countKey_eq_one {α : Type} {l : List (String × α)} {k : String}
    (hnd : (keys l).Nodup) (hmem : k ∈ keys l) : countKey l k = 1 := by
  rw [countKey_eq_count]
  exact List.count_eq_one_of_mem hnd hmem

theorem alookup_append_single_ne {α : Type} (l : List (String × α))
    {k k2 : String} (v2 : α) (h : k ≠ k2) :
    alookup (l ++ [(k2, v2)]) k = alookup l k := by
  cases he : alookup l k with
  | some w => exact alookup_append_some _ he
  | none =>
      rw [alookup_append_none _ he]
      have hne : k2 ≠ k := fun hh => h hh.symm
      simp [alookup, hne]

/-! ### Compute-phase lemmas -/

theorem serverEnvReadFromConfig_singleton (cfg : ServConfig) (r : RecordData)
    (section_name field_name : String) (g : GetterKind) :
    serverEnvReadFromConfig cfg [r] section_name field_name g =
      .ok (configValue cfg section_name field_name g,
        match typedGet cfg g section_name field_name with
        | .ok _ => none
        | .error _ => some (readErrorLog field_name section_name)) := by
  unfold serverEnvReadFromConfig configValue
  cases typedGet cfg g section_name field_name <;> rfl

theorem exceptBindOk {α β : Type} (a : α) (k : α → Except String β) :
    (do
      let x ← (Except.ok a : Except String α)
      k x) = k a := rfl

theorem exceptBindPure {α β : Type} (a : α) (k : α → Except String β) :
    (do
      let x ← (pure a : Except String α)
      k x) = k a := rfl

theorem exceptMapOk {α β : Type} (f : α → β) (a : α) :
    Except.map f (Except.ok a : Except String α) = Except.ok (f a) := rfl

theorem computeFieldsGo_cons (cfg : ServConfig) (mn : String)
    (r0 r : RecordData) (field_name : String) (g : GetterKind)
    (rest : List (String × GetterKind)) :
    computeFieldsGo cfg mn [r0] r ((field_name, g) :: rest) =
      computeFieldsGo cfg mn [r0]
        (recordSet r field_name
          (resolvedValue cfg (replaceDots mn ++ "." ++ r0.displayName)
            field_name g r)) rest := by
  simp only [computeFieldsGo, serverEnvSectionName, exceptBindOk]
  cases hp : cfg.hasSectionAndKey (replaceDots mn ++ "." ++ r0.displayName)
      field_name
  · simp [hp, exceptBindPure, resolvedValue]
  · simp only [hp, if_true, serverEnvReadFromConfig_singleton, exceptMapOk,
      exceptBindOk]
    simp [resolvedValue, hp]

theorem computeFieldsGo_ok (cfg : ServConfig) (mn : String) (r0 : RecordData) :
    ∀ (fs : List (String × GetterKind)) (r : RecordData),
      ∃ r', computeFieldsGo cfg mn [r0] r fs = .ok r' := by
  intro fs
  induction fs with
  | nil => intro r; exact ⟨r, rfl⟩
  | cons p rest ih =>
      intro r
      obtain ⟨f, g⟩ := p
      rw [computeFieldsGo_cons]
      exact ih _

theorem computeFieldsGo_lookup_other (cfg : ServConfig) (mn : String)
    (r0 : RecordData) (k : String) :
    ∀ (fs : List (String × GetterKind)) (r r' : RecordData),
      k ∉ fs.map Prod.fst → computeFieldsGo cfg mn [r0] r fs = .ok r' →
      alookup r'.vals k = alookup r.vals k := by
  intro fs
  induction fs with
  | nil =>
      intro r r' _ h
      simp [computeFieldsGo] at h
      subst h
      rfl
  | cons p rest ih =>
      intro r r' hk h
      obtain ⟨f, g⟩ := p
      simp only [List.map_cons, List.mem_cons] at hk
      push_neg at hk
      rw [computeFieldsGo_cons] at h
      rw [ih _ _ hk.2 h]
      exact alookup_putEntry_ne _ _ hk.1

theorem computeFieldsGo_value_present (cfg : ServConfig) (mn : String)
    (r0 : RecordData) (f : String) (g : GetterKind) :
    ∀ (fs : List (String × GetterKind)) (r : RecordData),
      (fs.map Prod.fst).Nodup → (f, g) ∈ fs →
      cfg.hasSectionAndKey (replaceDots mn ++ "." ++ r0.displayName) f =
        true →
      ∃ r', computeFieldsGo cfg mn [r0] r fs = .ok r' ∧
        alookup r'.vals f =
          some (configValue cfg (replaceDots mn ++ "." ++ r0.displayName)
            f g) := by
  intro fs
  induction fs with
  | nil => intro r _ hm; simp at hm
  | cons p rest ih =>
      intro r hnd hm hp
      obtain ⟨f', g'⟩ := p
      simp only [List.map_cons, List.nodup_cons] at hnd
      rw [computeFieldsGo_cons]
      rcases List.mem_cons.1 hm with hh | ht
      · injection hh with hf hg
        subst hf
        subst hg
        obtain ⟨r', hok⟩ := computeFieldsGo_ok cfg mn r0 rest
          (recordSet r f
            (resolvedValue cfg (replaceDots mn ++ "." ++ r0.displayName)
              f g r))
        refine ⟨r', hok, ?_⟩
        rw [computeFieldsGo_lookup_other cfg mn r0 f rest _ _ hnd.1 hok]
        unfold recordSet
        rw [alookup_putEntry_self]
        simp [resolvedValue, hp]
      · exact ih _ hnd.2 ht hp

theorem computeFieldsGo_value_absent (cfg : ServConfig) (mn : String)
    (r0 : RecordData) (f : String) (g : GetterKind) :
    ∀ (fs : List (String × GetterKind)) (r : RecordData),
      (fs.map Prod.fst).Nodup → (f, g) ∈ fs →
      cfg.hasSectionAndKey (replaceDots mn ++ "." ++ r0.displayName) f =
        false →
      (∀ p ∈ fs, p.1 ≠ serverEnvDefaultFieldname f) →
      ∃ r', computeFieldsGo cfg mn [r0] r fs = .ok r' ∧
        alookup r'.vals f =
          some (recordGet r (serverEnvDefaultFieldname f) g) := by
  intro fs
  induction fs with
  | nil => intro r _ hm; simp at hm
  | cons p rest ih =>
      intro r hnd hm hp hsh
      obtain ⟨f', g'⟩ := p
      simp only [List.map_cons, List.nodup_cons] at hnd
      rw [computeFieldsGo_cons]
      rcases List.mem_cons.1 hm with hh | ht
      · injection hh with hf hg
        subst hf
        subst hg
        obtain ⟨r', hok⟩ := computeFieldsGo_ok cfg mn r0 rest
          (recordSet r f
            (resolvedValue cfg (replaceDots mn ++ "." ++ r0.displayName)
              f g r))
        refine ⟨r', hok, ?_⟩
        rw [computeFieldsGo_lookup_other cfg mn r0 f rest _ _ hnd.1 hok]
        unfold recordSet
        rw [alookup_putEntry_self]
        simp [resolvedValue, hp]
      · have hne : f' ≠ serverEnvDefaultFieldname f :=
          hsh (f', g') (List.mem_cons_self _ _)
        have hrest : ∀ p ∈ rest, p.1 ≠ serverEnvDefaultFieldname f :=
          fun p hpm => hsh p (List.mem_cons_of_mem _ hpm)
        obtain ⟨r', hok, hval⟩ := ih
          (recordSet r f'
            (resolvedValue cfg (replaceDots mn ++ "." ++ r0.displayName)
              f' g' r)) hnd.2 ht hp hrest
        refine ⟨r', hok, ?_⟩
        rw [hval]
        unfold recordGet recordSet
        simp only [alookup_putEntry_ne _ _ (Ne.symm hne)]

theorem computeServerEnv_singleton (cfg : ServConfig) (mn : String)
    (fs : List (String × GetterKind)) (r r' : RecordData)
    (h : computeFieldsGo cfg mn [r] r fs = .ok r') :
    computeServerEnv cfg mn fs [r] = .ok [r'] := by
  unfold computeServerEnv computeServerEnvGo
  rw [h]
  rfl

/-! ### Schema-setup lemmas -/

theorem exceptBindError {α β : Type} (e : String)
    (k : α → Except String β) :
    (do
      let x ← (Except.error e : Except String α)
      k x) = Except.error e := rfl

theorem keys_append {α : Type} (l1 l2 : List (String × α)) :
    keys (l1 ++ l2) = keys l1 ++ keys l2 := by
  simp [keys]

theorem setEntry_setEntry {α : Type} (l : List (String × α)) (k : String)
    (a b : α) : setEntry (setEntry l k a) k b = setEntry l k b := by
  induction l with
  | nil => simp [setEntry]
  | cons p rest ih =>
      obtain ⟨k0, v0⟩ := p
      by_cases hk : k0 = k
      · subst hk
        simp [setEntry]
      · simp [setEntry, hk, ih]

theorem defaultFieldname_ne (d : String) :
    serverEnvDefaultFieldname d ≠ d := by
  intro h
  have hl := congrArg String.length h
  rw [serverEnvDefaultFieldname, String.length_append] at hl
  have h12 : "_env_default".length = 12 := rfl
  omega

theorem alookup_defaultFieldArgs_sparse (args : List (String × ArgVal)) :
    alookup (defaultFieldArgs args) "sparse" =
      some (.s "server_env_defaults") := by
  unfold defaultFieldArgs
  rw [alookup_putEntry_ne _ _ (by decide : "sparse" ≠ "automatic")]
  exact alookup_putEntry_self _ _ _

theorem alookup_defaultFieldArgs_automatic (args : List (String × ArgVal)) :
    alookup (defaultFieldArgs args) "automatic" = some (.b true) :=
  alookup_putEntry_self _ _ _

theorem alookup_defaultFieldArgs_sequence {args : List (String × ArgVal)}
    (hnd : (keys args).Nodup) :
    alookup (defaultFieldArgs args) "_sequence" = none := by
  unfold defaultFieldArgs
  rw [alookup_putEntry_ne _ _ (by decide : "_sequence" ≠ "automatic"),
    alookup_putEntry_ne _ _ (by decide : "_sequence" ≠ "sparse")]
  exact alookup_eraseKey_self hnd

theorem addDefaultField_skip (m : ModelDef) (bf : FieldDesc)
    (h : (alookup m.fields (serverEnvDefaultFieldname bf.name)).isSome =
      true) :
    serverEnvAddDefaultField m bf = m := by
  unfold serverEnvAddDefaultField
  simp [h]

theorem addDefaultField_new (m : ModelDef) (bf : FieldDesc)
    (h : alookup m.fields (serverEnvDefaultFieldname bf.name) = none) :
    serverEnvAddDefaultField m bf = ModelDef.mk m.name
      (setEntry m.fields bf.name { bf with args := defaultFieldArgs bf.args } ++
        [(serverEnvDefaultFieldname bf.name, { (mkFieldFromArgs bf.fclass (defaultFieldArgs bf.args)) with name := serverEnvDefaultFieldname bf.name })])
      m.serverEnvFields := by
  unfold serverEnvAddDefaultField addField
  simp [h]

theorem setupField_cases (m : ModelDef) (d : String) (m' : ModelDef)
    (hwf : WellNamed m) (h : setupField m d = .ok m') :
    ∃ field f1, alookup m.fields d = some field ∧ field.name = d ∧
      f1 = transformFieldToReadFromEnv field ∧
      ((∃ sd, alookup m.fields (serverEnvDefaultFieldname d) = some sd ∧
          m' = ModelDef.mk m.name (setEntry m.fields d f1)
            m.serverEnvFields) ∨
       (alookup m.fields (serverEnvDefaultFieldname d) = none ∧
          m' = ModelDef.mk m.name
            (setEntry m.fields d { f1 with args := defaultFieldArgs f1.args } ++
              [(serverEnvDefaultFieldname d, { (mkFieldFromArgs f1.fclass (defaultFieldArgs f1.args)) with name := serverEnvDefaultFieldname d })])
            m.serverEnvFields)) := by
  unfold setupField at h
  cases hf : alookup m.fields d with
  | none => rw [hf] at h; cases h
  | some field =>
      rw [hf] at h
      have hname : field.name = d := hwf (d, field) (alookup_mem hf)
      injection h with h
      refine ⟨field, transformFieldToReadFromEnv field, rfl, hname, rfl, ?_⟩
      have hn1 : (transformFieldToReadFromEnv field).name = d := hname
      cases hsd : alookup m.fields (serverEnvDefaultFieldname d) with
      | some sd =>
          left
          refine ⟨sd, rfl, ?_⟩
          have hs : (alookup (ModelDef.mk m.name
              (setEntry m.fields d (transformFieldToReadFromEnv field))
              m.serverEnvFields).fields
              (serverEnvDefaultFieldname
                (transformFieldToReadFromEnv field).name)).isSome = true := by
            show (alookup
              (setEntry m.fields d (transformFieldToReadFromEnv field))
              (serverEnvDefaultFieldname
                (transformFieldToReadFromEnv field).name)).isSome = true
            rw [hn1, alookup_setEntry_ne _ _ (defaultFieldname_ne d), hsd]
            rfl
          rw [addDefaultField_skip _ _ hs] at h
          exact h.symm
      | none =>
          right
          refine ⟨rfl, ?_⟩
          have hs : alookup (ModelDef.mk m.name
              (setEntry m.fields d (transformFieldToReadFromEnv field))
              m.serverEnvFields).fields
              (serverEnvDefaultFieldname
                (transformFieldToReadFromEnv field).name) = none := by
            show alookup
              (setEntry m.fields d (transformFieldToReadFromEnv field))
              (serverEnvDefaultFieldname
                (transformFieldToReadFromEnv field).name) = none
            rw [hn1, alookup_setEntry_ne _ _ (defaultFieldname_ne d), hsd]
          rw [addDefaultField_new _ _ hs] at h
          rw [← h]
          dsimp only []
          rw [hn1, setEntry_setEntry]

theorem setupField_meta (m : ModelDef) (d : String) (m' : ModelDef)
    (hwf : WellNamed m) (h : setupField m d = .ok m') :
    m'.serverEnvFields = m.serverEnvFields ∧ m'.name = m.name := by
  obtain ⟨field, f1, _, _, _, hcase⟩ := setupField_cases m d m' hwf h
  rcases hcase with ⟨sd, _, rfl⟩ | ⟨_, rfl⟩ <;> exact ⟨rfl, rfl⟩

theorem setupField_lookup_other (m : ModelDef) (d : String) (m' : ModelDef)
    (hwf : WellNamed m) (h : setupField m d = .ok m') (k : String)
    (hk1 : k ≠ d) (hk2 : k ≠ serverEnvDefaultFieldname d) :
    alookup m'.fields k = alookup m.fields k := by
  obtain ⟨field, f1, _, _, _, hcase⟩ := setupField_cases m d m' hwf h
  rcases hcase with ⟨sd, _, rfl⟩ | ⟨_, rfl⟩
  · exact alookup_setEntry_ne _ _ hk1
  · show alookup (setEntry m.fields d _ ++ _) k = _
    rw [alookup_append_single_ne _ _ hk2]
    exact alookup_setEntry_ne _ _ hk1

theorem setupField_transformed (m : ModelDef) (d : String) (m' : ModelDef)
    (hwf : WellNamed m) (h : setupField m d = .ok m') :
    Transformed m' d := by
  obtain ⟨field, f1, hf, _, hf1, hcase⟩ := setupField_cases m d m' hwf h
  subst hf1
  have hdk : d ∈ keys m.fields := by
    rw [← alookup_isSome_iff]
    rw [hf]
    rfl
  rcases hcase with ⟨sd, _, rfl⟩ | ⟨_, rfl⟩
  · exact ⟨transformFieldToReadFromEnv field,
      alookup_setEntry_self _ hdk, rfl, rfl, rfl, rfl⟩
  · refine ⟨{ (transformFieldToReadFromEnv field) with args := defaultFieldArgs (transformFieldToReadFromEnv field).args }, ?_, rfl, rfl, rfl, rfl⟩
    show alookup (setEntry m.fields d _ ++ _) d = _
    rw [alookup_append_single_ne _ _ (Ne.symm (defaultFieldname_ne d))]
    exact alookup_setEntry_self _ hdk

theorem setupField_shadow (m : ModelDef) (d : String) (m' : ModelDef)
    (hwf : WellNamed m) (h : setupField m d = .ok m')
    (hpre : alookup m.fields (serverEnvDefaultFieldname d) = none ∨
      HasShadow m d) :
    HasShadow m' d := by
  obtain ⟨field, f1, hf, _, hf1, hcase⟩ := setupField_cases m d m' hwf h
  subst hf1
  rcases hcase with ⟨sd, hsd, rfl⟩ | ⟨hn, rfl⟩
  · rcases hpre with hn | ⟨sd', hsd', hsp⟩
    · rw [hn] at hsd; cases hsd
    · refine ⟨sd', ?_, hsp⟩
      show alookup (setEntry m.fields d _) _ = _
      rw [alookup_setEntry_ne _ _ (defaultFieldname_ne d)]
      exact hsd'
  · refine ⟨{ (mkFieldFromArgs (transformFieldToReadFromEnv field).fclass (defaultFieldArgs (transformFieldToReadFromEnv field).args)) with name := serverEnvDefaultFieldname d }, ?_, ?_⟩
    · show alookup (setEntry m.fields d _ ++ _) _ = _
      have h1 : alookup (setEntry m.fields d
          { (transformFieldToReadFromEnv field) with args := defaultFieldArgs (transformFieldToReadFromEnv field).args })
          (serverEnvDefaultFieldname d) = none := by
        rw [alookup_setEntry_ne _ _ (defaultFieldname_ne d)]
        exact hn
      rw [alookup_append_none _ h1]
      simp [alookup]
    · show (mkFieldFromArgs (transformFieldToReadFromEnv field).fclass
        (defaultFieldArgs (transformFieldToReadFromEnv field).args)).sparse = _
      unfold mkFieldFromArgs
      rw [alookup_defaultFieldArgs_sparse]

theorem setupField_preserves_transformed (m : ModelDef) (e : String)
    (m' : ModelDef) (hwf : WellNamed m) (h : setupField m e = .ok m')
    (d : String) (hde : d ≠ serverEnvDefaultFieldname e)
    (ht : Transformed m d) : Transformed m' d := by
  by_cases hdd : d = e
  · subst hdd
    exact setupField_transformed m d m' hwf h
  · obtain ⟨fd, hfd, props⟩ := ht
    exact ⟨fd, by
      rw [setupField_lookup_other m e m' hwf h d hdd hde]; exact hfd, props⟩

theorem setupField_preserves_shadow (m : ModelDef) (e : String)
    (m' : ModelDef) (hwf : WellNamed m) (h : setupField m e = .ok m')
    (d : String) (h1 : serverEnvDefaultFieldname d ≠ e)
    (hs : HasShadow m d) : HasShadow m' d := by
  obtain ⟨field, f1, hf, _, hf1, hcase⟩ := setupField_cases m e m' hwf h
  subst hf1
  obtain ⟨sd, hsd, hsp⟩ := hs
  rcases hcase with ⟨sd', _, rfl⟩ | ⟨hn, rfl⟩
  · exact ⟨sd, by
      show alookup (setEntry m.fields e _) _ = _
      rw [alookup_setEntry_ne _ _ h1]; exact hsd, hsp⟩
  · have hne : serverEnvDefaultFieldname d ≠ serverEnvDefaultFieldname e := by
      intro hh
      rw [hh, hn] at hsd
      cases hsd
    exact ⟨sd, by
      show alookup (setEntry m.fields e _ ++ _) _ = _
      rw [alookup_append_single_ne _ _ hne, alookup_setEntry_ne _ _ h1]
      exact hsd, hsp⟩

theorem setupField_wellnamed (m : ModelDef) (d : String) (m' : ModelDef)
    (hwf : WellNamed m) (h : setupField m d = .ok m') : WellNamed m' := by
  obtain ⟨field, f1, hf, hname, hf1, hcase⟩ := setupField_cases m d m' hwf h
  subst hf1
  rcases hcase with ⟨sd, _, rfl⟩ | ⟨_, rfl⟩ <;> intro p hp
  · rcases mem_setEntry hp with hp' | hp'
    · exact hwf p hp'
    · subst hp'
      exact hname
  · rcases List.mem_append.1 hp with hp' | hp'
    · rcases mem_setEntry hp' with hp'' | hp''
      · exact hwf p hp''
      · subst hp''
        exact hname
    · simp at hp'
      subst hp'
      rfl

theorem setupField_keys (m : ModelDef) (d : String) (m' : ModelDef)
    (hwf : WellNamed m) (h : setupField m d = .ok m') :
    keys m'.fields = keys m.fields ∨
    keys m'.fields = keys m.fields ++ [serverEnvDefaultFieldname d] := by
  obtain ⟨field, f1, _, _, _, hcase⟩ := setupField_cases m d m' hwf h
  rcases hcase with ⟨sd, _, rfl⟩ | ⟨_, rfl⟩
  · left
    exact keys_setEntry _ _ _
  · right
    show keys (setEntry m.fields d _ ++ _) = _
    rw [keys_append, keys_setEntry]
    rfl

theorem setupField_nodup (m : ModelDef) (d : String) (m' : ModelDef)
    (hwf : WellNamed m) (h : setupField m d = .ok m')
    (hnd : (keys m.fields).Nodup) : (keys m'.fields).Nodup := by
  obtain ⟨field, f1, _, _, _, hcase⟩ := setupField_cases m d m' hwf h
  rcases hcase with ⟨sd, _, rfl⟩ | ⟨hn, rfl⟩
  · show (keys (setEntry m.fields d _)).Nodup
    rw [keys_setEntry]
    exact hnd
  · show (keys (setEntry m.fields d _ ++ _)).Nodup
    rw [keys_append, keys_setEntry]
    have habs : serverEnvDefaultFieldname d ∉ keys m.fields :=
      (alookup_eq_none _ _).1 hn
    rw [List.nodup_append]
    refine ⟨hnd, List.nodup_singleton _, ?_⟩
    intro a ha hb
    simp [keys] at hb
    subst hb
    exact habs ha

theorem setupField_identity (m : ModelDef) (d : String)
    (hwf : WellNamed m) (ht : Transformed m d)
    (hsh : (alookup m.fields (serverEnvDefaultFieldname d)).isSome = true) :
    setupField m d = .ok m := by
  obtain ⟨fd, hfd, hc, hst, hcp, hsp⟩ := ht
  have hname : fd.name = d := hwf (d, fd) (alookup_mem hfd)
  have htr : transformFieldToReadFromEnv fd = fd := by
    cases fd
    unfold transformFieldToReadFromEnv
    simp_all
  unfold setupField
  rw [hfd]
  simp only [htr]
  rw [setEntry_self hfd]
  have hm : { m with fields := m.fields } = m := rfl
  rw [hm]
  unfold serverEnvAddDefaultField
  rw [hname]
  simp [hsh]

theorem setupBaseGo_cons_elim {m m' : ModelDef} {d : String}
    {g : GetterKind} {rest : List (String × GetterKind)}
    (h : setupBaseGo m ((d, g) :: rest) = .ok m') :
    ∃ m1, setupField m d = .ok m1 ∧ setupBaseGo m1 rest = .ok m' := by
  rw [show setupBaseGo m ((d, g) :: rest) = (do
      let m1 ← setupField m d
      setupBaseGo m1 rest) from rfl] at h
  cases hs : setupField m d with
  | error e =>
      rw [hs, exceptBindError] at h
      cases h
  | ok m1 =>
      rw [hs, exceptBindOk] at h
      exact ⟨m1, rfl, h⟩

theorem setupBaseGo_invariants :
    ∀ (fs : List (String × GetterKind)) (m m' : ModelDef),
      WellNamed m → setupBaseGo m fs = .ok m' →
      WellNamed m' ∧ m'.serverEnvFields = m.serverEnvFields ∧
      ((keys m.fields).Nodup → (keys m'.fields).Nodup) := by
  intro fs
  induction fs with
  | nil =>
      intro m m' hwf h
      injection h with h
      subst h
      exact ⟨hwf, rfl, id⟩
  | cons p rest ih =>
      intro m m' hwf h
      obtain ⟨d, g⟩ := p
      obtain ⟨m1, hs, hrest⟩ := setupBaseGo_cons_elim h
      have hwf1 := setupField_wellnamed m d m1 hwf hs
      obtain ⟨hwf2, hsf, hnd⟩ := ih m1 m' hwf1 hrest
      refine ⟨hwf2, ?_, ?_⟩
      · rw [hsf, (setupField_meta m d m1 hwf hs).1]
      · intro h0
        exact hnd (setupField_nodup m d m1 hwf hs h0)

theorem setupBaseGo_preserves :
    ∀ (fs : List (String × GetterKind)) (m m' : ModelDef),
      WellNamed m → setupBaseGo m fs = .ok m' → ∀ d : String,
      (∀ p ∈ fs, d ≠ serverEnvDefaultFieldname p.1) →
      (∀ p ∈ fs, serverEnvDefaultFieldname d ≠ p.1) →
      (Transformed m d → Transformed m' d) ∧
      (HasShadow m d → HasShadow m' d) := by
  intro fs
  induction fs with
  | nil =>
      intro m m' _ h d _ _
      injection h with h
      subst h
      exact ⟨id, id⟩
  | cons p rest ih =>
      intro m m' hwf h d hc1 hc2
      obtain ⟨e, g⟩ := p
      obtain ⟨m1, hs, hrest⟩ := setupBaseGo_cons_elim h
      have hwf1 := setupField_wellnamed m e m1 hwf hs
      have hde : d ≠ serverEnvDefaultFieldname e :=
        hc1 (e, g) (List.mem_cons_self _ _)
      have h1 : serverEnvDefaultFieldname d ≠ e :=
        hc2 (e, g) (List.mem_cons_self _ _)
      have hc1r : ∀ p ∈ rest, d ≠ serverEnvDefaultFieldname p.1 :=
        fun p hp => hc1 p (List.mem_cons_of_mem _ hp)
      have hc2r : ∀ p ∈ rest, serverEnvDefaultFieldname d ≠ p.1 :=
        fun p hp => hc2 p (List.mem_cons_of_mem _ hp)
      obtain ⟨iht, ihs⟩ := ih m1 m' hwf1 hrest d hc1r hc2r
      exact ⟨fun ht => iht
          (setupField_preserves_transformed m e m1 hwf hs d hde ht),
        fun hsh => ihs
          (setupField_preserves_shadow m e m1 hwf hs d h1 hsh)⟩

theorem setupBaseGo_post :
    ∀ (fs : List (String × GetterKind)) (m m' : ModelDef),
      WellNamed m →
      (∀ p ∈ fs, alookup m.fields (serverEnvDefaultFieldname p.1) = none ∨
        HasShadow m p.1) →
      (∀ p q, p ∈ fs → q ∈ fs → p.1 ≠ serverEnvDefaultFieldname q.1) →
      setupBaseGo m fs = .ok m' →
      ∀ p ∈ fs, Transformed m' p.1 ∧ HasShadow m' p.1 := by
  intro fs
  induction fs with
  | nil => intro m m' _ _ _ _ p hp; simp at hp
  | cons q rest ih =>
      intro m m' hwf hpre hnos h p hp
      obtain ⟨e, g⟩ := q
      obtain ⟨m1, hs, hrest⟩ := setupBaseGo_cons_elim h
      have hwf1 := setupField_wellnamed m e m1 hwf hs
      have hT1 : Transformed m1 e := setupField_transformed m e m1 hwf hs
      have hS1 : HasShadow m1 e := setupField_shadow m e m1 hwf hs
        (hpre (e, g) (List.mem_cons_self _ _))
      have hpre1 : ∀ p2 ∈ rest,
          alookup m1.fields (serverEnvDefaultFieldname p2.1) = none ∨
          HasShadow m1 p2.1 := by
        intro p2 hp2
        have hk1 : serverEnvDefaultFieldname p2.1 ≠ e :=
          Ne.symm (hnos (e, g) p2 (List.mem_cons_self _ _)
            (List.mem_cons_of_mem _ hp2))
        rcases hpre p2 (List.mem_cons_of_mem _ hp2) with habs | hhs
        · by_cases heq : serverEnvDefaultFieldname p2.1 =
              serverEnvDefaultFieldname e
          · right
            obtain ⟨sd, hsd, hsp⟩ := hS1
            exact ⟨sd, by rw [heq]; exact hsd, hsp⟩
          · left
            rw [setupField_lookup_other m e m1 hwf hs
              (serverEnvDefaultFieldname p2.1) hk1 heq]
            exact habs
        · right
          exact setupField_preserves_shadow m e m1 hwf hs p2.1 hk1 hhs
      have hnos1 : ∀ p2 q2, p2 ∈ rest → q2 ∈ rest →
          p2.1 ≠ serverEnvDefaultFieldname q2.1 :=
        fun p2 q2 hp2 hq2 => hnos p2 q2 (List.mem_cons_of_mem _ hp2)
          (List.mem_cons_of_mem _ hq2)
      rcases List.mem_cons.1 hp with hph | hpt
      · subst hph
        have hcond1 : ∀ p2 ∈ rest, e ≠ serverEnvDefaultFieldname p2.1 :=
          fun p2 hp2 => hnos (e, g) p2 (List.mem_cons_self _ _)
            (List.mem_cons_of_mem _ hp2)
        have hcond2 : ∀ p2 ∈ rest, serverEnvDefaultFieldname e ≠ p2.1 :=
          fun p2 hp2 => Ne.symm (hnos p2 (e, g) (List.mem_cons_of_mem _ hp2)
            (List.mem_cons_self _ _))
        obtain ⟨pt, ps⟩ := setupBaseGo_preserves rest m1 m' hwf1 hrest e
          hcond1 hcond2
        exact ⟨pt hT1, ps hS1⟩
      · exact ih m1 m' hwf1 hpre1 hnos1 hrest p hpt

theorem setupBaseGo_identity :
    ∀ (fs : List (String × GetterKind)) (m : ModelDef),
      WellNamed m →
      (∀ p ∈ fs, Transformed m p.1 ∧
        (alookup m.fields (serverEnvDefaultFieldname p.1)).isSome = true) →
      setupBaseGo m fs = .ok m := by
  intro fs
  induction fs with
  | nil => intro m _ _; rfl
  | cons q rest ih =>
      intro m hwf hcond
      obtain ⟨e, g⟩ := q
      obtain ⟨ht, hsh⟩ := hcond (e, g) (List.mem_cons_self _ _)
      have hid := setupField_identity m e hwf ht hsh
      show (do
        let m1 ← setupField m e
        setupBaseGo m1 rest) = .ok m
      rw [hid, exceptBindOk]
      exact ih m hwf (fun p hp => hcond p (List.mem_cons_of_mem _ hp))

theorem setupBaseGo_error :
    ∀ (fs : List (String × GetterKind)) (m : ModelDef) (f : String),
      WellNamed m →
      (∃ g, (f, g) ∈ fs) →
      alookup m.fields f = none →
      (∀ p ∈ fs, f ≠ serverEnvDefaultFieldname p.1) →
      ∃ e, setupBaseGo m fs = .error e := by
  intro fs
  induction fs with
  | nil =>
      intro m f _ hmem _ _
      obtain ⟨g, hg⟩ := hmem
      simp at hg
  | cons q rest ih =>
      intro m f hwf hmem habs hns
      obtain ⟨d, g'⟩ := q
      have hcons : setupBaseGo m ((d, g') :: rest) = (do
          let m1 ← setupField m d
          setupBaseGo m1 rest) := rfl
      by_cases hdf : d = f
      · subst hdf
        have herr : setupField m d = .error ("KeyError: " ++ d) := by
          unfold setupField
          rw [habs]
        exact ⟨"KeyError: " ++ d, by rw [hcons, herr, exceptBindError]⟩
      · cases hs : setupField m d with
        | error e => exact ⟨e, by rw [hcons, hs, exceptBindError]⟩
        | ok m1 =>
            have hwf1 := setupField_wellnamed m d m1 hwf hs
            have hmem1 : ∃ g, (f, g) ∈ rest := by
              obtain ⟨g2, hg2⟩ := hmem
              rcases List.mem_cons.1 hg2 with hh | ht
              · injection hh with h1 h2
                exact absurd h1.symm hdf
              · exact ⟨g2, ht⟩
            have habs1 : alookup m1.fields f = none := by
              rcases setupField_keys m d m1 hwf hs with hk | hk
              · rw [alookup_eq_none] at habs ⊢
                rw [hk]
                exact habs
              · rw [alookup_eq_none] at habs ⊢
                rw [hk]
                intro hmemk
                rcases List.mem_append.1 hmemk with h1 | h1
                · exact habs h1
                · simp at h1
                  exact hns (d, g') (List.mem_cons_self _ _) h1
            have hns1 : ∀ p ∈ rest, f ≠ serverEnvDefaultFieldname p.1 :=
              fun p hp => hns p (List.mem_cons_of_mem _ hp)
            obtain ⟨e, he⟩ := ih m1 f hwf1 hmem1 habs1 hns1
            exact ⟨e, by rw [hcons, hs, exceptBindOk]; exact he⟩

/-! ### Claims -/

/-- Claim C1: for every record and every declared (field name, getter
kind) pair, when the configuration store contains the section computed for
the record and the key, the value the compute routine assigns to the
overridden field equals the typed value fetched through
`_server_env_read_from_config` with the declared getter kind, regardless
of the current value of the shadow default field. -/
theorem claim_C1 (cfg : ServConfig) (mn : String)
    (envFields : List (String × GetterKind)) (r : RecordData)
    (f : String) (g : GetterKind) (sec : String)
    (hnodup : (envFields.map Prod.fst).Nodup)
    (hmem : (f, g) ∈ envFields)
    (hsec : serverEnvSectionName mn [r] = .ok sec)
    (hpresent : cfg.hasSectionAndKey sec f = true) :
    ∃ r' v log, computeServerEnv cfg mn envFields [r] = .ok [r'] ∧
      serverEnvReadFromConfig cfg [r] sec f g = .ok (v, log) ∧
      alookup r'.vals f = some v ∧
      (∀ w : CValue, ∃ r2,
        computeServerEnv cfg mn envFields
          [RecordData.mk r.displayName
            (putEntry r.vals (serverEnvDefaultFieldname f) w)] = .ok [r2] ∧
        alookup r2.vals f = some v) := by
  have hs : replaceDots mn ++ "." ++ r.displayName = sec := by
    injection hsec
  subst hs
  obtain ⟨r', hok, hval⟩ := computeFieldsGo_value_present cfg mn r f g
    envFields r hnodup hmem hpresent
  refine ⟨r', _, _, computeServerEnv_singleton cfg mn envFields r r' hok,
    serverEnvReadFromConfig_singleton cfg r _ f g, hval, ?_⟩
  intro w
  obtain ⟨r2, hok2, hval2⟩ := computeFieldsGo_value_present cfg mn
    (RecordData.mk r.displayName
      (putEntry r.vals (serverEnvDefaultFieldname f) w)) f g envFields
    (RecordData.mk r.displayName
      (putEntry r.vals (serverEnvDefaultFieldname f) w)) hnodup hmem
    hpresent
  exact ⟨r2, computeServerEnv_singleton cfg mn envFields _ r2 hok2, hval2⟩

/-- Claim C1 witness: a concrete record of model storage.backend named
Primary, with the config store holding the section and key; the compute
routine assigns the config value, regardless of the shadow default. -/
theorem claim_C1_witness :
    ∃ r' v log,
      computeServerEnv
        (ServConfig.mk
          [("storage_backend.Primary", [("directory_path", "/srv/files")])])
        "storage.backend" [("directory_path", GetterKind.get)]
        [RecordData.mk "Primary"
          [("directory_path_env_default", CValue.s "/home/old")]] =
        .ok [r'] ∧
      serverEnvReadFromConfig
        (ServConfig.mk
          [("storage_backend.Primary", [("directory_path", "/srv/files")])])
        [RecordData.mk "Primary"
          [("directory_path_env_default", CValue.s "/home/old")]]
        "storage_backend.Primary" "directory_path" GetterKind.get =
        .ok (v, log) ∧
      alookup r'.vals "directory_path" = some v ∧
      (∀ w : CValue, ∃ r2,
        computeServerEnv
          (ServConfig.mk
            [("storage_backend.Primary", [("directory_path", "/srv/files")])])
          "storage.backend" [("directory_path", GetterKind.get)]
          [RecordData.mk
            (RecordData.mk "Primary"
              [("directory_path_env_default",
                CValue.s "/home/old")]).displayName
            (putEntry
              (RecordData.mk "Primary"
                [("directory_path_env_default", CValue.s "/home/old")]).vals
              (serverEnvDefaultFieldname "directory_path") w)] = .ok [r2] ∧
        alookup r2.vals "directory_path" = some v) :=
  claim_C1
    (ServConfig.mk
      [("storage_backend.Primary", [("directory_path", "/srv/files")])])
    "storage.backend" [("directory_path", GetterKind.get)]
    (RecordData.mk "Primary"
      [("directory_path_env_default", CValue.s "/home/old")])
    "directory_path" GetterKind.get "storage_backend.Primary"
    (by decide) (by decide) (by rfl) (by rfl)

/-- Claim C2: for every record and declared overridden field, when the
configuration store does not contain the section and key for that record,
the compute routine assigns the current value of the shadow default field
`<field>_env_default` of the record, verbatim. -/
theorem claim_C2 (cfg : ServConfig) (mn : String)
    (envFields : List (String × GetterKind)) (r : RecordData)
    (f : String) (g : GetterKind) (sec : String)
    (hnodup : (envFields.map Prod.fst).Nodup)
    (hmem : (f, g) ∈ envFields)
    (hsec : serverEnvSectionName mn [r] = .ok sec)
    (habsent : cfg.hasSectionAndKey sec f = false)
    (hnoshadow : ∀ p ∈ envFields, p.1 ≠ serverEnvDefaultFieldname f) :
    ∃ r', computeServerEnv cfg mn envFields [r] = .ok [r'] ∧
      alookup r'.vals f =
        some (recordGet r (serverEnvDefaultFieldname f) g) := by
  have hs : replaceDots mn ++ "." ++ r.displayName = sec := by
    injection hsec
  subst hs
  obtain ⟨r', hok, hval⟩ := computeFieldsGo_value_absent cfg mn r f g
    envFields r hnodup hmem habsent hnoshadow
  exact ⟨r', computeServerEnv_singleton cfg mn envFields r r' hok, hval⟩

/-- Claim C2 witness: with an empty config store, the compute routine
assigns the shadow default value stored on the record. -/
theorem claim_C2_witness :
    ∃ r',
      computeServerEnv (ServConfig.mk []) "storage.backend"
        [("directory_path", GetterKind.get)]
        [RecordData.mk "Primary"
          [("directory_path_env_default", CValue.s "/home/old")]] =
        .ok [r'] ∧
      alookup r'.vals "directory_path" =
        some (recordGet
          (RecordData.mk "Primary"
            [("directory_path_env_default", CValue.s "/home/old")])
          (serverEnvDefaultFieldname "directory_path") GetterKind.get) :=
  claim_C2 (ServConfig.mk []) "storage.backend"
    [("directory_path", GetterKind.get)]
    (RecordData.mk "Primary"
      [("directory_path_env_default", CValue.s "/home/old")])
    "directory_path" GetterKind.get "storage_backend.Primary"
    (by decide) (by decide) (by rfl) (by rfl) (by decide)

/-- Claim C3: the claim states that a batch of N records with mixed
config-present and config-absent entries is resolved per record; the code
instead calls the section-name method on the whole recordset inside the
loop, whose singleton guard raises for two records, so the compute routine
aborts with the singleton error on this concrete mixed batch of two
records instead of assigning per-record values. -/
theorem claim_C3 :
    computeServerEnv
      (ServConfig.mk [("storage_backend.A", [("directory_path", "/srv/a")])])
      "storage.backend" [("directory_path", GetterKind.get)]
      [RecordData.mk "A" [],
       RecordData.mk "B"
         [("directory_path_env_default", CValue.s "/srv/b")]] =
      .error "ValueError: Expected singleton" := by rfl

/-- Claim C4: for every section name, field name and getter kind, if the
typed getter raises, `_server_env_read_from_config` does not propagate the
exception: it returns the `False` sentinel together with a log line that
names the field and the section. -/
theorem claim_C4 (cfg : ServConfig) (self : List RecordData)
    (sec f : String) (g : GetterKind) (e : String)
    (hone : ∃ r0, self = [r0])
    (herr : typedGet cfg g sec f = .error e) :
    serverEnvReadFromConfig cfg self sec f g =
      .ok (.b false, some (readErrorLog f sec)) := by
  obtain ⟨r0, rfl⟩ := hone
  rw [serverEnvReadFromConfig_singleton, herr]
  simp [configValue, herr]

/-- Claim C4 witness: a get_int getter on the non-integer raw string abc
raises, and the helper collapses the error to the `False` sentinel with
the logged context. -/
theorem claim_C4_witness :
    (typedGet (ServConfig.mk [("sec", [("port", "abc")])]) GetterKind.get_int
      "sec" "port" = .error "ValueError: invalid literal for int") ∧
    serverEnvReadFromConfig (ServConfig.mk [("sec", [("port", "abc")])])
      [RecordData.mk "A" []] "sec" "port" GetterKind.get_int =
      .ok (.b false, some (readErrorLog "port" "sec")) :=
  ⟨by decide,
    claim_C4 (ServConfig.mk [("sec", [("port", "abc")])])
      [RecordData.mk "A" []] "sec" "port" GetterKind.get_int
      "ValueError: invalid literal for int"
      ⟨RecordData.mk "A" [], rfl⟩ (by decide)⟩

/-- Claim C5: for a record with no config entry for a declared field and
an unset shadow default, the compute routine assigns the type-appropriate
empty value of the getter kind: empty string for get, false for get_bool,
zero for get_int. -/
theorem claim_C5 (cfg : ServConfig) (mn : String)
    (envFields : List (String × GetterKind)) (r : RecordData)
    (f : String) (g : GetterKind) (sec : String)
    (hnodup : (envFields.map Prod.fst).Nodup)
    (hmem : (f, g) ∈ envFields)
    (hsec : serverEnvSectionName mn [r] = .ok sec)
    (habsent : cfg.hasSectionAndKey sec f = false)
    (hnoshadow : ∀ p ∈ envFields, p.1 ≠ serverEnvDefaultFieldname f)
    (hunset : alookup r.vals (serverEnvDefaultFieldname f) = none) :
    ∃ r', computeServerEnv cfg mn envFields [r] = .ok [r'] ∧
      alookup r'.vals f = some (emptyValue g) ∧
      emptyValue GetterKind.get = CValue.s "" ∧
      emptyValue GetterKind.get_bool = CValue.b false ∧
      emptyValue GetterKind.get_int = CValue.i 0 := by
  have hs : replaceDots mn ++ "." ++ r.displayName = sec := by
    injection hsec
  subst hs
  obtain ⟨r', hok, hval⟩ := computeFieldsGo_value_absent cfg mn r f g
    envFields r hnodup hmem habsent hnoshadow
  refine ⟨r', computeServerEnv_singleton cfg mn envFields r r' hok, ?_,
    rfl, rfl, rfl⟩
  rw [hval]
  unfold recordGet
  rw [hunset]

/-- Claim C5 witness: empty config store and a record with no stored
values; a get field resolves to the empty string. -/
theorem claim_C5_witness :
    ∃ r',
      computeServerEnv (ServConfig.mk []) "storage.backend"
        [("directory_path", GetterKind.get)] [RecordData.mk "Primary" []] =
        .ok [r'] ∧
      alookup r'.vals "directory_path" = some (emptyValue GetterKind.get) ∧
      emptyValue GetterKind.get = CValue.s "" ∧
      emptyValue GetterKind.get_bool = CValue.b false ∧
      emptyValue GetterKind.get_int = CValue.i 0 :=
  claim_C5 (ServConfig.mk []) "storage.backend"
    [("directory_path", GetterKind.get)] (RecordData.mk "Primary" [])
    "directory_path" GetterKind.get "storage_backend.Primary"
    (by decide) (by decide) (by rfl) (by rfl) (by decide) (by rfl)

/-- Claim C6: schema setup is idempotent with respect to shadow-field
creation: if one run of `_setup_base` succeeds, a second run succeeds with
no error and changes nothing, and each declared field has exactly one
registered shadow field `<field>_env_default`. -/
theorem claim_C6 (m m' : ModelDef)
    (hwf : WellNamed m)
    (hkeys : (keys m.fields).Nodup)
    (hfresh : ∀ p ∈ m.serverEnvFields,
      alookup m.fields (serverEnvDefaultFieldname p.1) = none)
    (hnos : ∀ p ∈ m.serverEnvFields, ∀ q ∈ m.serverEnvFields,
      p.1 ≠ serverEnvDefaultFieldname q.1)
    (hok : setupBase m = .ok m') :
    setupBase m' = .ok m' ∧
    ∀ p ∈ m.serverEnvFields,
      countKey m'.fields (serverEnvDefaultFieldname p.1) = 1 := by
  have hgo : setupBaseGo m m.serverEnvFields = .ok m' := hok
  have hpre : ∀ p ∈ m.serverEnvFields,
      alookup m.fields (serverEnvDefaultFieldname p.1) = none ∨
      HasShadow m p.1 := fun p hp => Or.inl (hfresh p hp)
  have hpost := setupBaseGo_post m.serverEnvFields m m' hwf hpre
    (fun p q hp hq => hnos p hp q hq) hgo
  obtain ⟨hwf2, hsf, hnd⟩ :=
    setupBaseGo_invariants m.serverEnvFields m m' hwf hgo
  constructor
  · show setupBaseGo m' m'.serverEnvFields = .ok m'
    rw [hsf]
    refine setupBaseGo_identity m.serverEnvFields m' hwf2 ?_
    intro p hp
    refine ⟨(hpost p hp).1, ?_⟩
    obtain ⟨sd, hsd, _⟩ := (hpost p hp).2
    rw [hsd]
    rfl
  · intro p hp
    obtain ⟨sd, hsd, _⟩ := (hpost p hp).2
    refine countKey_eq_one (hnd hkeys) ?_
    rw [← alookup_isSome_iff, hsd]
    rfl

/-- Claim C6 witness: a concrete model with one declared field; after a
first successful setup run, a second run returns the same model unchanged
and exactly one shadow field is registered. -/
theorem claim_C6_witness :
    setupBase (ModelDef.mk "storage.backend"
        [("directory_path",
          FieldDesc.mk "directory_path" "Char" (some "_compute_server_env")
            false false none false
            [("string", ArgVal.s "Directory"),
             ("sparse", ArgVal.s "server_env_defaults"),
             ("automatic", ArgVal.b true)]),
         ("directory_path_env_default",
          FieldDesc.mk "directory_path_env_default" "Char" none true true
            (some "server_env_defaults") true
            [("string", ArgVal.s "Directory"),
             ("sparse", ArgVal.s "server_env_defaults"),
             ("automatic", ArgVal.b true)])]
        [("directory_path", GetterKind.get)]) = .ok (ModelDef.mk "storage.backend"
        [("directory_path",
          FieldDesc.mk "directory_path" "Char" (some "_compute_server_env")
            false false none false
            [("string", ArgVal.s "Directory"),
             ("sparse", ArgVal.s "server_env_defaults"),
             ("automatic", ArgVal.b true)]),
         ("directory_path_env_default",
          FieldDesc.mk "directory_path_env_default" "Char" none true true
            (some "server_env_defaults") true
            [("string", ArgVal.s "Directory"),
             ("sparse", ArgVal.s "server_env_defaults"),
             ("automatic", ArgVal.b true)])]
        [("directory_path", GetterKind.get)]) ∧
    ∀ p ∈ ((ModelDef.mk "storage.backend"
        [("directory_path",
          FieldDesc.mk "directory_path" "Char" none true true none false
            [("_sequence", ArgVal.n 5), ("string", ArgVal.s "Directory")])]
        [("directory_path", GetterKind.get)])).serverEnvFields,
      countKey ((ModelDef.mk "storage.backend"
        [("directory_path",
          FieldDesc.mk "directory_path" "Char" (some "_compute_server_env")
            false false none false
            [("string", ArgVal.s "Directory"),
             ("sparse", ArgVal.s "server_env_defaults"),
             ("automatic", ArgVal.b true)]),
         ("directory_path_env_default",
          FieldDesc.mk "directory_path_env_default" "Char" none true true
            (some "server_env_defaults") true
            [("string", ArgVal.s "Directory"),
             ("sparse", ArgVal.s "server_env_defaults"),
             ("automatic", ArgVal.b true)])]
        [("directory_path", GetterKind.get)])).fields (serverEnvDefaultFieldname p.1) = 1 :=
  claim_C6 (ModelDef.mk "storage.backend"
        [("directory_path",
          FieldDesc.mk "directory_path" "Char" none true true none false
            [("_sequence", ArgVal.n 5), ("string", ArgVal.s "Directory")])]
        [("directory_path", GetterKind.get)]) (ModelDef.mk "storage.backend"
        [("directory_path",
          FieldDesc.mk "directory_path" "Char" (some "_compute_server_env")
            false false none false
            [("string", ArgVal.s "Directory"),
             ("sparse", ArgVal.s "server_env_defaults"),
             ("automatic", ArgVal.b true)]),
         ("directory_path_env_default",
          FieldDesc.mk "directory_path_env_default" "Char" none true true
            (some "server_env_defaults") true
            [("string", ArgVal.s "Directory"),
             ("sparse", ArgVal.s "server_env_defaults"),
             ("automatic", ArgVal.b true)])]
        [("directory_path", GetterKind.get)])
    (by decide) (by decide) (by decide) (by decide) (by decide)

/-- Claim C7: after a successful schema setup, every declared field has a
descriptor computed by the shared routine, non-stored, non-copied, with
the sparse flag cleared, and a registered shadow field
`<field>_env_default` stored in the `server_env_defaults` serialized
blob. -/
theorem claim_C7 (m m' : ModelDef)
    (hwf : WellNamed m)
    (hfresh : ∀ p ∈ m.serverEnvFields,
      alookup m.fields (serverEnvDefaultFieldname p.1) = none)
    (hnos : ∀ p ∈ m.serverEnvFields, ∀ q ∈ m.serverEnvFields,
      p.1 ≠ serverEnvDefaultFieldname q.1)
    (hok : setupBase m = .ok m') :
    ∀ p ∈ m.serverEnvFields, ∃ fd sd,
      alookup m'.fields p.1 = some fd ∧
      fd.compute = some "_compute_server_env" ∧
      fd.store = false ∧ fd.copy = false ∧ fd.sparse = none ∧
      alookup m'.fields (serverEnvDefaultFieldname p.1) = some sd ∧
      sd.sparse = some "server_env_defaults" := by
  have hgo : setupBaseGo m m.serverEnvFields = .ok m' := hok
  have hpre : ∀ p ∈ m.serverEnvFields,
      alookup m.fields (serverEnvDefaultFieldname p.1) = none ∨
      HasShadow m p.1 := fun p hp => Or.inl (hfresh p hp)
  have hpost := setupBaseGo_post m.serverEnvFields m m' hwf hpre
    (fun p q hp hq => hnos p hp q hq) hgo
  intro p hp
  obtain ⟨⟨fd, hfd, h1, h2, h3, h4⟩, sd, hsd, h5⟩ := hpost p hp
  exact ⟨fd, sd, hfd, h1, h2, h3, h4, hsd, h5⟩

/-- Claim C7 witness: the concrete model of claim C6, after setup, at its
declared field directory_path: the field is transformed in place and its
shadow field sits in the serialized blob. -/
theorem claim_C7_witness :
    ∃ fd sd,
      alookup ((ModelDef.mk "storage.backend"
        [("directory_path",
          FieldDesc.mk "directory_path" "Char" (some "_compute_server_env")
            false false none false
            [("string", ArgVal.s "Directory"),
             ("sparse", ArgVal.s "server_env_defaults"),
             ("automatic", ArgVal.b true)]),
         ("directory_path_env_default",
          FieldDesc.mk "directory_path_env_default" "Char" none true true
            (some "server_env_defaults") true
            [("string", ArgVal.s "Directory"),
             ("sparse", ArgVal.s "server_env_defaults"),
             ("automatic", ArgVal.b true)])]
        [("directory_path", GetterKind.get)])).fields "directory_path" = some fd ∧
      fd.compute = some "_compute_server_env" ∧
      fd.store = false ∧ fd.copy = false ∧ fd.sparse = none ∧
      alookup ((ModelDef.mk "storage.backend"
        [("directory_path",
          FieldDesc.mk "directory_path" "Char" (some "_compute_server_env")
            false false none false
            [("string", ArgVal.s "Directory"),
             ("sparse", ArgVal.s "server_env_defaults"),
             ("automatic", ArgVal.b true)]),
         ("directory_path_env_default",
          FieldDesc.mk "directory_path_env_default" "Char" none true true
            (some "server_env_defaults") true
            [("string", ArgVal.s "Directory"),
             ("sparse", ArgVal.s "server_env_defaults"),
             ("automatic", ArgVal.b true)])]
        [("directory_path", GetterKind.get)])).fields
        (serverEnvDefaultFieldname "directory_path") = some sd ∧
      sd.sparse = some "server_env_defaults" :=
  claim_C7 (ModelDef.mk "storage.backend"
        [("directory_path",
          FieldDesc.mk "directory_path" "Char" none true true none false
            [("_sequence", ArgVal.n 5), ("string", ArgVal.s "Directory")])]
        [("directory_path", GetterKind.get)]) (ModelDef.mk "storage.backend"
        [("directory_path",
          FieldDesc.mk "directory_path" "Char" (some "_compute_server_env")
            false false none false
            [("string", ArgVal.s "Directory"),
             ("sparse", ArgVal.s "server_env_defaults"),
             ("automatic", ArgVal.b true)]),
         ("directory_path_env_default",
          FieldDesc.mk "directory_path_env_default" "Char" none true true
            (some "server_env_defaults") true
            [("string", ArgVal.s "Directory"),
             ("sparse", ArgVal.s "server_env_defaults"),
             ("automatic", ArgVal.b true)])]
        [("directory_path", GetterKind.get)])
    (by decide) (by decide) (by decide) (by decide)
    ("directory_path", GetterKind.get) (by decide)

/-- Claim C8: for a single record, the default section name is the record
type identifier with every dot replaced by an underscore, followed by a
dot, followed by the record display name; in particular a record of type
storage.backend named Primary yields storage_backend.Primary. -/
theorem claim_C8 :
    (∀ (mn dn : String) (vals : List (String × CValue)),
      serverEnvSectionName mn [RecordData.mk dn vals] =
        .ok (replaceDots mn ++ "." ++ dn)) ∧
    replaceDots "storage.backend" = "storage_backend" ∧
    serverEnvSectionName "storage.backend" [RecordData.mk "Primary" []] =
      .ok "storage_backend.Primary" := by
  refine ⟨fun mn dn vals => rfl, by decide, by decide⟩

/-- Claim C9: when the overridden-fields mapping declares a field name
with no corresponding field on the record type, schema setup raises and
the error is not caught. -/
theorem claim_C9 (m : ModelDef) (f : String)
    (hwf : WellNamed m)
    (hmem : ∃ g, (f, g) ∈ m.serverEnvFields)
    (habs : alookup m.fields f = none)
    (hns : ∀ p ∈ m.serverEnvFields, f ≠ serverEnvDefaultFieldname p.1) :
    ∃ e, setupBase m = .error e :=
  setupBaseGo_error m.serverEnvFields m f hwf hmem habs hns

/-- Claim C9 witness: a model declaring the unknown field name
missing_field fails its setup. -/
theorem claim_C9_witness :
    ∃ e, setupBase
      (ModelDef.mk "x.y" [] [("missing_field", GetterKind.get)]) =
      .error e :=
  claim_C9 (ModelDef.mk "x.y" [] [("missing_field", GetterKind.get)])
    "missing_field" (by decide) ⟨GetterKind.get, by decide⟩ (by decide)
    (by decide)

/-- Claim C10: when the shadow field does not yet exist,
`_server_env_add_default_field` builds it from the original descriptor
args dictionary without copying it, so the original field registered
under its name ends up with `_sequence` removed and `sparse` and
`automatic` added to its args, and the created shadow field carries the
very same args. -/
theorem claim_C10 (m : ModelDef) (bf : FieldDesc)
    (hreg : alookup m.fields bf.name = some bf)
    (hargs : (keys bf.args).Nodup)
    (hnew : alookup m.fields (serverEnvDefaultFieldname bf.name) = none) :
    ∃ bf' sd,
      alookup (serverEnvAddDefaultField m bf).fields bf.name = some bf' ∧
      bf'.args = defaultFieldArgs bf.args ∧
      alookup bf'.args "_sequence" = none ∧
      alookup bf'.args "sparse" = some (ArgVal.s "server_env_defaults") ∧
      alookup bf'.args "automatic" = some (ArgVal.b true) ∧
      alookup (serverEnvAddDefaultField m bf).fields
        (serverEnvDefaultFieldname bf.name) = some sd ∧
      sd.args = defaultFieldArgs bf.args := by
  rw [addDefaultField_new m bf hnew]
  refine ⟨{ bf with args := defaultFieldArgs bf.args },
    { (mkFieldFromArgs bf.fclass (defaultFieldArgs bf.args)) with name := serverEnvDefaultFieldname bf.name },
    ?_, rfl, ?_, ?_, ?_, ?_, rfl⟩
  · show alookup (setEntry m.fields bf.name _ ++ _) bf.name = _
    rw [alookup_append_single_ne _ _ (Ne.symm (defaultFieldname_ne bf.name))]
    refine alookup_setEntry_self _ ?_
    rw [← alookup_isSome_iff, hreg]
    rfl
  · exact alookup_defaultFieldArgs_sequence hargs
  · exact alookup_defaultFieldArgs_sparse _
  · exact alookup_defaultFieldArgs_automatic _
  · show alookup (setEntry m.fields bf.name _ ++ _)
      (serverEnvDefaultFieldname bf.name) = _
    have h1 : alookup
        (setEntry m.fields bf.name { bf with args := defaultFieldArgs bf.args })
        (serverEnvDefaultFieldname bf.name) = none := by
      rw [alookup_setEntry_ne _ _ (defaultFieldname_ne bf.name)]
      exact hnew
    rw [alookup_append_none _ h1]
    simp [alookup]

/-- Claim C10 witness: the concrete original field of claim C6: creating
the shadow field mutates the original args in place. -/
theorem claim_C10_witness :
    ∃ bf' sd,
      alookup (serverEnvAddDefaultField (ModelDef.mk "storage.backend"
        [("directory_path",
          FieldDesc.mk "directory_path" "Char" none true true none false
            [("_sequence", ArgVal.n 5), ("string", ArgVal.s "Directory")])]
        [("directory_path", GetterKind.get)]) (FieldDesc.mk "directory_path" "Char" none true true none false
      [("_sequence", ArgVal.n 5), ("string", ArgVal.s "Directory")])).fields
        ((FieldDesc.mk "directory_path" "Char" none true true none false
      [("_sequence", ArgVal.n 5), ("string", ArgVal.s "Directory")])).name = some bf' ∧
      bf'.args = defaultFieldArgs ((FieldDesc.mk "directory_path" "Char" none true true none false
      [("_sequence", ArgVal.n 5), ("string", ArgVal.s "Directory")])).args ∧
      alookup bf'.args "_sequence" = none ∧
      alookup bf'.args "sparse" = some (ArgVal.s "server_env_defaults") ∧
      alookup bf'.args "automatic" = some (ArgVal.b true) ∧
      alookup (serverEnvAddDefaultField (ModelDef.mk "storage.backend"
        [("directory_path",
          FieldDesc.mk "directory_path" "Char" none true true none false
            [("_sequence", ArgVal.n 5), ("string", ArgVal.s "Directory")])]
        [("directory_path", GetterKind.get)]) (FieldDesc.mk "directory_path" "Char" none true true none false
      [("_sequence", ArgVal.n 5), ("string", ArgVal.s "Directory")])).fields
        (serverEnvDefaultFieldname ((FieldDesc.mk "directory_path" "Char" none true true none false
      [("_sequence", ArgVal.n 5), ("string", ArgVal.s "Directory")])).name) = some sd ∧
      sd.args = defaultFieldArgs ((FieldDesc.mk "directory_path" "Char" none true true none false
      [("_sequence", ArgVal.n 5), ("string", ArgVal.s "Directory")])).args :=
  claim_C10 (ModelDef.mk "storage.backend"
        [("directory_path",
          FieldDesc.mk "directory_path" "Char" none true true none false
            [("_sequence", ArgVal.n 5), ("string", ArgVal.s "Directory")])]
        [("directory_path", GetterKind.get)]) (FieldDesc.mk "directory_path" "Char" none true true none false
      [("_sequence", ArgVal.n 5), ("string", ArgVal.s "Directory")]) (by decide) (by decide) (by decide)

end ServerEnv
